import Mathlib

/-!
Verification of the Markov Chain Intraday Prediction engine
(`markov_trading_system.py`): the movement encoder, the transition-model
builder, the pattern-matching predictor with its confidence / signal-strength
scoring, date selection, and the momentum indicator.  Close prices are
embedded as rationals; the Python dictionaries are embedded as counting
functions over the list of observed (pattern, outcome) windows, with dict
membership expressed as a positive observation count.
-/

namespace MarkovSystem

/-- Movement symbols {UP, DOWN, FLAT}. -/
inductive Move where
  | UP
  | DOWN
  | FLAT
deriving DecidableEq, Repr

open Move

/-- Movement encoder (lines 73-80 of `markov_trading_system.py`):
for each `i` in `[1, len)`, emits UP if `closes[i] > closes[i-1]`,
DOWN if `closes[i] < closes[i-1]`, else FLAT. -/
def encodeMovements : List ℚ → List Move
  | a :: b :: rest =>
      (if b > a then UP else if b < a then DOWN else FLAT) :: encodeMovements (b :: rest)
  | _ => []

theorem encodeMovements_length (closes : List ℚ) :
    (encodeMovements closes).length = closes.length - 1 := by
  induction closes with
  | nil => rfl
  | cons a t ih =>
    cases t with
    | nil => rfl
    | cons b r =>
      simp only [encodeMovements, List.length_cons] at ih ⊢
      omega

theorem encodeMovements_getD (closes : List ℚ) :
    ∀ i : ℕ, i + 1 < closes.length →
      (encodeMovements closes).getD i FLAT =
        (if closes.getD (i+1) 0 > closes.getD i 0 then UP
         else if closes.getD (i+1) 0 < closes.getD i 0 then DOWN else FLAT) := by
  induction closes with
  | nil => intro i hi; simp at hi
  | cons a t ih =>
    intro i hi
    cases t with
    | nil => simp at hi
    | cons b r =>
      cases i with
      | zero => rfl
      | succ j =>
        have hj : j + 1 < (b :: r).length := by
          simpa using Nat.lt_of_succ_lt_succ hi
        simpa [encodeMovements] using ih j hj

/-- C1: for every close sequence of length ≥ 2 the movement encoder produces
exactly `N - 1` symbols, and `symbol[i] = UP` iff `close[i+1] > close[i]`,
`symbol[i] = DOWN` iff `close[i+1] < close[i]`, `symbol[i] = FLAT` iff they
are exactly equal. -/
theorem encoder_spec (closes : List ℚ) (hlen : 2 ≤ closes.length) :
    (encodeMovements closes).length = closes.length - 1 ∧
    ∀ i : ℕ, i < closes.length - 1 →
      ((encodeMovements closes).getD i FLAT = UP ↔ closes.getD (i+1) 0 > closes.getD i 0) ∧
      ((encodeMovements closes).getD i FLAT = DOWN ↔ closes.getD (i+1) 0 < closes.getD i 0) ∧
      ((encodeMovements closes).getD i FLAT = FLAT ↔ closes.getD (i+1) 0 = closes.getD i 0) := by
  refine ⟨encodeMovements_length closes, fun i hi => ?_⟩
  have hg := encodeMovements_getD closes i (by omega)
  rcases lt_trichotomy (closes.getD i 0) (closes.getD (i+1) 0) with h | h | h
  · rw [hg, if_pos h]
    refine ⟨⟨fun _ => h, fun _ => rfl⟩, ?_, ?_⟩
    · exact ⟨(fun hc => nomatch hc), fun hc => absurd hc (asymm h)⟩
    · exact ⟨(fun hc => nomatch hc), fun hc => absurd h (not_lt.mpr (le_of_eq hc))⟩
  · rw [hg, if_neg (not_lt.mpr (le_of_eq h.symm)), if_neg (not_lt.mpr (le_of_eq h))]
    refine ⟨?_, ?_, ⟨fun _ => h.symm, fun _ => rfl⟩⟩
    · exact ⟨(fun hc => nomatch hc), fun hc => absurd hc (not_lt.mpr (le_of_eq h.symm))⟩
    · exact ⟨(fun hc => nomatch hc), fun hc => absurd hc (not_lt.mpr (le_of_eq h))⟩
  · rw [hg, if_neg (asymm h), if_pos h]
    refine ⟨?_, ⟨fun _ => h, fun _ => rfl⟩, ?_⟩
    · exact ⟨(fun hc => nomatch hc), fun hc => absurd hc (asymm h)⟩
    · exact ⟨(fun hc => nomatch hc), fun hc => absurd h (not_lt.mpr (le_of_eq hc.symm))⟩

/-- Witness for `encoder_spec` at the concrete sequence `[1, 3, 3, 2]`. -/
theorem encoder_spec_witness :
    (encodeMovements [1, 3, 3, 2]).length = ([1, 3, 3, 2] : List ℚ).length - 1 ∧
    ∀ i : ℕ, i < ([1, 3, 3, 2] : List ℚ).length - 1 →
      ((encodeMovements [1, 3, 3, 2]).getD i FLAT = UP ↔
        ([1, 3, 3, 2] : List ℚ).getD (i+1) 0 > ([1, 3, 3, 2] : List ℚ).getD i 0) ∧
      ((encodeMovements [1, 3, 3, 2]).getD i FLAT = DOWN ↔
        ([1, 3, 3, 2] : List ℚ).getD (i+1) 0 < ([1, 3, 3, 2] : List ℚ).getD i 0) ∧
      ((encodeMovements [1, 3, 3, 2]).getD i FLAT = FLAT ↔
        ([1, 3, 3, 2] : List ℚ).getD (i+1) 0 = ([1, 3, 3, 2] : List ℚ).getD i 0) :=
  encoder_spec [1, 3, 3, 2] (by decide)

/-- Pattern: ordered triple of three consecutive movement symbols. -/
abbrev Pattern := Move × Move × Move

/-- The (pattern, outcome) windows consumed by the model builder
(lines 82-85): for every index `i ≥ 3` of the movement sequence, the pattern
`(movements[i-3], movements[i-2], movements[i-1])` paired with the outcome
`movements[i]`. -/
def patternOutcomes : List Move → List (Pattern × Move)
  | a :: b :: c :: d :: rest => ((a, b, c), d) :: patternOutcomes (b :: c :: d :: rest)
  | _ => []

/-- `pattern_counts[p][m]`: how many windows saw pattern `p` followed by `m`. -/
def patternCount (train : List Move) (p : Pattern) (m : Move) : ℕ :=
  (patternOutcomes train).countP (fun x => x.1 == p && x.2 == m)

/-- `sum(pattern_counts[p].values())` (line 88). -/
def patternTotal (train : List Move) (p : Pattern) : ℕ :=
  (patternOutcomes train).countP (fun x => x.1 == p)

/-- Dict membership `p in transition_matrix`: the pattern was observed with at
least one outcome (a `defaultdict(Counter)` key exists exactly when some
increment happened for it). -/
def inModel (train : List Move) (p : Pattern) : Bool :=
  decide (0 < patternTotal train p)

/-- `transition_matrix[p][m]` (lines 87-91): observation count divided by the
pattern's total count.  `probs.get(m, 0)` yields 0 for outcomes never seen
after `p`, which coincides with the 0 numerator here. -/
def transitionProb (train : List Move) (p : Pattern) (m : Move) : ℚ :=
  (patternCount train p m : ℚ) / (patternTotal train p : ℚ)

/-- `build_markov_model` (lines 55-93): returns `(None, None)` iff the dataset
has fewer than 4 rows; otherwise the transition table is fully determined by
the encoded movement sequence, which we return as the model's carrier. -/
def buildMarkovModel (closes : List ℚ) : Option (List Move) :=
  if closes.length < 4 then none else some (encodeMovements closes)

/-- The day-local 3-symbol windows of the predictor (lines 165-170): every
window, including the final one that has no successor symbol. -/
def localPatterns : List Move → List Pattern
  | a :: b :: c :: rest => (a, b, c) :: localPatterns (b :: c :: rest)
  | _ => []

theorem countP_outcome_split (l : List (Pattern × Move)) (p : Pattern) :
    l.countP (fun x => x.1 == p && x.2 == UP) +
      l.countP (fun x => x.1 == p && x.2 == DOWN) +
      l.countP (fun x => x.1 == p && x.2 == FLAT) =
      l.countP (fun x => x.1 == p) := by
  induction l with
  | nil => rfl
  | cons e t ih =>
    obtain ⟨q, m⟩ := e
    rcases eq_or_ne q p with rfl | hq
    · cases m <;> (simp [List.countP_cons]; omega)
    · simp [List.countP_cons, hq, ih]

theorem prob_sum_one (train : List Move) (p : Pattern) (h : 0 < patternTotal train p) :
    transitionProb train p UP + transitionProb train p DOWN + transitionProb train p FLAT
      = 1 := by
  have hsplit : patternCount train p UP + patternCount train p DOWN +
      patternCount train p FLAT = patternTotal train p :=
    countP_outcome_split (patternOutcomes train) p
  unfold transitionProb
  rw [div_add_div_same, div_add_div_same, ← Nat.cast_add, ← Nat.cast_add, hsplit]
  exact div_self (Nat.cast_ne_zero.mpr h.ne')

/-- C5: every pattern stored in the trained transition model has outcome
probabilities summing to exactly 1 (over exact rational arithmetic), because
each count is divided by the pattern's total observation count. -/
theorem stored_pattern_prob_sum (train : List Move) (p : Pattern)
    (h : inModel train p = true) :
    transitionProb train p UP + transitionProb train p DOWN + transitionProb train p FLAT
      = 1 :=
  prob_sum_one train p (by simpa [inModel] using h)

/-- Witness for `stored_pattern_prob_sum`: the model trained on closes
`[1, 2, 3, 2, 3]` stores pattern `(UP, UP, DOWN)`. -/
theorem stored_pattern_prob_sum_witness :
    inModel (encodeMovements [1, 2, 3, 2, 3]) (UP, UP, DOWN) = true ∧
    transitionProb (encodeMovements [1, 2, 3, 2, 3]) (UP, UP, DOWN) UP +
      transitionProb (encodeMovements [1, 2, 3, 2, 3]) (UP, UP, DOWN) DOWN +
      transitionProb (encodeMovements [1, 2, 3, 2, 3]) (UP, UP, DOWN) FLAT = 1 :=
  ⟨by decide, stored_pattern_prob_sum (encodeMovements [1, 2, 3, 2, 3]) (UP, UP, DOWN)
    (by decide)⟩

theorem patternOutcomes_nil_of_short (l : List Move) (h : l.length ≤ 3) :
    patternOutcomes l = [] := by
  rcases l with _ | ⟨a, _ | ⟨b, _ | ⟨c, _ | ⟨d, r⟩⟩⟩⟩
  · rfl
  · rfl
  · rfl
  · rfl
  · simp at h

/-- C2 counterexample: with exactly 4 candles the minimum-row check passes,
`build_markov_model` returns a model whose pattern table is empty, and the
training step of `main` — which aborts only when the builder returned `None` —
does not fail. -/
theorem empty_table_training_counterexample :
    buildMarkovModel [1, 2, 3, 4] = some [UP, UP, UP] ∧
    patternOutcomes [UP, UP, UP] = [] ∧
    (buildMarkovModel [1, 2, 3, 4]).isSome = true := by
  refine ⟨by decide, rfl, by decide⟩

/-- C2 amended: model building fails exactly when the dataset has fewer than 4
rows; an input of exactly 4 candles passes that check and yields an empty
pattern table without aborting — the run can only fail later, at the
predictor's zero-matched-patterns check. -/
theorem build_fails_iff_short (closes : List ℚ) :
    (buildMarkovModel closes = none ↔ closes.length < 4) ∧
    (closes.length = 4 →
      buildMarkovModel closes = some (encodeMovements closes) ∧
      patternOutcomes (encodeMovements closes) = []) := by
  refine ⟨?_, fun h4 => ?_⟩
  · by_cases h : closes.length < 4
    · simp [buildMarkovModel, h]
    · simp [buildMarkovModel, h]
  · have hnot : ¬ closes.length < 4 := by omega
    refine ⟨by simp [buildMarkovModel, hnot], ?_⟩
    apply patternOutcomes_nil_of_short
    have := encodeMovements_length closes
    omega

/-- Witness for `build_fails_iff_short` at the 4-candle input `[1, 2, 3, 9]`. -/
theorem build_fails_iff_short_witness :
    (buildMarkovModel [1, 2, 3, 9] = none ↔ ([1, 2, 3, 9] : List ℚ).length < 4) ∧
    (buildMarkovModel [1, 2, 3, 9] = some (encodeMovements [1, 2, 3, 9]) ∧
      patternOutcomes (encodeMovements [1, 2, 3, 9]) = []) :=
  ⟨(build_fails_iff_short [1, 2, 3, 9]).1,
   (build_fails_iff_short [1, 2, 3, 9]).2 (by decide)⟩

theorem mem_localPatterns_of_mem_outcomes : ∀ (l : List Move) (p : Pattern),
    p ∈ (patternOutcomes l).map Prod.fst → p ∈ localPatterns l
  | [], _, hp => by simp [patternOutcomes] at hp
  | [_], _, hp => by simp [patternOutcomes] at hp
  | [_, _], _, hp => by simp [patternOutcomes] at hp
  | [_, _, _], _, hp => by simp [patternOutcomes] at hp
  | a :: b :: c :: d :: rest, p, hp => by
    have hp' : p = (a, b, c) ∨ p ∈ (patternOutcomes (b :: c :: d :: rest)).map Prod.fst := by
      simpa [patternOutcomes] using hp
    rcases hp' with h | h
    · simp [localPatterns, h]
    · exact List.mem_cons_of_mem _ (mem_localPatterns_of_mem_outcomes (b :: c :: d :: rest) p h)

/-- C3 counterexample: in the training sequence encoded from closes
`[1, 2, 3, 2, 1]` the pattern `(UP, UP, DOWN)` occurs exactly once among the
3-symbol windows — it never recurs — and yet it IS stored in the model, with
the trivial 100% distribution on its single observed outcome. -/
theorem single_occurrence_counterexample :
    encodeMovements [1, 2, 3, 2, 1] = [UP, UP, DOWN, DOWN] ∧
    (localPatterns [UP, UP, DOWN, DOWN]).count (UP, UP, DOWN) = 1 ∧
    inModel [UP, UP, DOWN, DOWN] (UP, UP, DOWN) = true ∧
    transitionProb [UP, UP, DOWN, DOWN] (UP, UP, DOWN) DOWN = 1 := by
  refine ⟨by decide, by decide, by decide, ?_⟩
  have h1 : patternCount [UP, UP, DOWN, DOWN] (UP, UP, DOWN) DOWN = 1 := by decide
  have h2 : patternTotal [UP, UP, DOWN, DOWN] (UP, UP, DOWN) = 1 := by decide
  unfold transitionProb
  rw [h1, h2]
  norm_num

/-- C3 amended: a pattern is stored in the transition model iff it occurs as a
window followed by at least one more symbol; hence a pattern occurring only as
the final 3-symbol window is excluded, and a pattern never observed among the
sequence's 3-windows at all is absent from the mapping (no smoothing, no
default distribution).  A pattern observed with an outcome is stored even if
it occurs only once, in which case its distribution is a trivial 100%. -/
theorem pattern_membership (train : List Move) (p : Pattern) :
    (inModel train p = true ↔ p ∈ (patternOutcomes train).map Prod.fst) ∧
    (p ∉ localPatterns train → inModel train p = false) := by
  have hiff : inModel train p = true ↔ p ∈ (patternOutcomes train).map Prod.fst := by
    unfold inModel patternTotal
    rw [decide_eq_true_eq, List.countP_pos_iff]
    constructor
    · rintro ⟨x, hx, hdec⟩
      exact List.mem_map.mpr ⟨x, hx, by simpa using hdec⟩
    · intro hm
      obtain ⟨x, hx, hfst⟩ := List.mem_map.mp hm
      exact ⟨x, hx, by simp [hfst]⟩
  refine ⟨hiff, fun hnot => ?_⟩
  cases h : inModel train p with
  | false => rfl
  | true => exact absurd (mem_localPatterns_of_mem_outcomes train p (hiff.mp h)) hnot

/-- Witness for `pattern_membership` on the model trained from
`[1, 2, 3, 2, 1]` and the never-observed pattern `(DOWN, DOWN, DOWN)`. -/
theorem pattern_membership_witness :
    (inModel [UP, UP, DOWN, DOWN] (DOWN, DOWN, DOWN) = true ↔
      (DOWN, DOWN, DOWN) ∈ (patternOutcomes [UP, UP, DOWN, DOWN]).map Prod.fst) ∧
    inModel [UP, UP, DOWN, DOWN] (DOWN, DOWN, DOWN) = false :=
  ⟨(pattern_membership [UP, UP, DOWN, DOWN] (DOWN, DOWN, DOWN)).1,
   (pattern_membership [UP, UP, DOWN, DOWN] (DOWN, DOWN, DOWN)).2 (by decide)⟩

/-- The day's `Movement` column (lines 158-163): initialized to FLAT, then
each row with a predecessor is re-encoded; so the first candle stays FLAT. -/
def dayMovements (closes : List ℚ) : List Move :=
  match closes with
  | [] => []
  | _ :: _ => FLAT :: encodeMovements closes

/-- `patterns_found` (lines 165-170): all sliding 3-symbol windows of the
day's movement column. -/
def patternsFound (dayCloses : List ℚ) : List Pattern :=
  localPatterns (dayMovements dayCloses)

/-- `matched_patterns` (lines 175-179): day patterns present in the model. -/
def matchedCount (train : List Move) (pats : List Pattern) : ℕ :=
  (pats.filter (fun p => inModel train p)).length

/-- The running totals `total_up` / `total_down` / `total_flat`
(lines 172-183): each matched pattern contributes its full distribution. -/
def totalMass (train : List Move) (pats : List Pattern) (m : Move) : ℚ :=
  ((pats.filter (fun p => inModel train p)).map (fun p => transitionProb train p m)).sum

/-- `confidence_up` / `confidence_down` / `confidence_flat`
(lines 189-192): each mass over the grand total, times 100. -/
def confidence (train : List Move) (pats : List Pattern) (m : Move) : ℚ :=
  totalMass train pats m /
    (totalMass train pats UP + totalMass train pats DOWN + totalMass train pats FLAT) * 100

/-- The prediction classification (lines 194-203): `max(up, down, flat)`
compared for equality against the UP confidence first, then DOWN, else FLAT. -/
def classify (u d f : ℚ) : String :=
  if max u (max d f) = u then "BULLISH"
  else if max u (max d f) = d then "BEARISH"
  else "NEUTRAL"

/-- `strength_score` (line 205). -/
def strengthScore (u d f : ℚ) : ℚ :=
  (max u (max d f) - 33.33) / 66.67 * 100

/-- `signal_strength` tiers (lines 206-211). -/
def signalStrength (u d f : ℚ) : String :=
  if strengthScore u d f > 70 then "Strong"
  else if strengthScore u d f > 40 then "Moderate"
  else "Weak"

/-- The reported "Match Quality" (line 267): matched patterns over ALL local
patterns generated for the day. -/
def matchQuality (train : List Move) (pats : List Pattern) : ℚ :=
  (matchedCount train pats : ℚ) / (pats.length : ℚ) * 100

theorem mass_sum_aux (train : List Move) :
    ∀ l : List Pattern, (∀ p ∈ l, 0 < patternTotal train p) →
      (l.map (fun p => transitionProb train p UP)).sum +
        (l.map (fun p => transitionProb train p DOWN)).sum +
        (l.map (fun p => transitionProb train p FLAT)).sum = l.length := by
  intro l
  induction l with
  | nil => intro _; simp
  | cons q t ih =>
    intro h
    have hq : 0 < patternTotal train q := h q (List.mem_cons_self q t)
    have ht := ih (fun p hp => h p (List.mem_cons_of_mem q hp))
    have hsum := prob_sum_one train q hq
    simp only [List.map_cons, List.sum_cons, List.length_cons]
    push_cast
    linarith

theorem totalMass_eq_matched (train : List Move) (pats : List Pattern) :
    totalMass train pats UP + totalMass train pats DOWN + totalMass train pats FLAT
      = matchedCount train pats := by
  unfold totalMass matchedCount
  apply mass_sum_aux
  intro p hp
  have := (List.mem_filter.mp hp).2
  simpa [inModel] using this

theorem mass_pos_of_matched (train : List Move) (pats : List Pattern)
    (h : 0 < matchedCount train pats) :
    0 < totalMass train pats UP + totalMass train pats DOWN + totalMass train pats FLAT := by
  rw [totalMass_eq_matched]
  exact_mod_cast h

theorem conf_sum_eq (train : List Move) (pats : List Pattern)
    (h : 0 < matchedCount train pats) :
    confidence train pats UP + confidence train pats DOWN + confidence train pats FLAT
      = 100 := by
  have hpos := mass_pos_of_matched train pats h
  have hT : totalMass train pats UP + totalMass train pats DOWN + totalMass train pats FLAT
      ≠ 0 := ne_of_gt hpos
  unfold confidence
  field_simp
  ring

/-- C7: whenever at least one of the day's local patterns matched the trained
model, the accumulated probability mass is strictly positive (so the
normalizing division is well-defined) and the three confidence percentages
sum to exactly 100. -/
theorem predictor_confidence_sum (train : List Move) (pats : List Pattern)
    (h : 0 < matchedCount train pats) :
    0 < totalMass train pats UP + totalMass train pats DOWN + totalMass train pats FLAT ∧
    confidence train pats UP + confidence train pats DOWN + confidence train pats FLAT
      = 100 :=
  ⟨mass_pos_of_matched train pats h, conf_sum_eq train pats h⟩

/-- Witness for `predictor_confidence_sum`: model trained on `[1, 2, 3, 2, 3]`,
day patterns `[(UP, UP, DOWN)]`. -/
theorem predictor_confidence_sum_witness :
    0 < totalMass (encodeMovements [1, 2, 3, 2, 3]) [(UP, UP, DOWN)] UP +
        totalMass (encodeMovements [1, 2, 3, 2, 3]) [(UP, UP, DOWN)] DOWN +
        totalMass (encodeMovements [1, 2, 3, 2, 3]) [(UP, UP, DOWN)] FLAT ∧
    confidence (encodeMovements [1, 2, 3, 2, 3]) [(UP, UP, DOWN)] UP +
      confidence (encodeMovements [1, 2, 3, 2, 3]) [(UP, UP, DOWN)] DOWN +
      confidence (encodeMovements [1, 2, 3, 2, 3]) [(UP, UP, DOWN)] FLAT = 100 :=
  predictor_confidence_sum (encodeMovements [1, 2, 3, 2, 3]) [(UP, UP, DOWN)] (by decide)

theorem totalMass_nonneg (train : List Move) (pats : List Pattern) (m : Move) :
    0 ≤ totalMass train pats m := by
  unfold totalMass
  apply List.sum_nonneg
  intro x hx
  obtain ⟨p, _, rfl⟩ := List.mem_map.mp hx
  unfold transitionProb
  positivity

theorem confidence_nonneg (train : List Move) (pats : List Pattern) (m : Move) :
    0 ≤ confidence train pats m := by
  unfold confidence
  have h1 := totalMass_nonneg train pats UP
  have h2 := totalMass_nonneg train pats DOWN
  have h3 := totalMass_nonneg train pats FLAT
  have hm := totalMass_nonneg train pats m
  apply mul_nonneg (div_nonneg hm (by linarith)) (by norm_num)

/-- C6: the predicted class is the arg-max of the three confidences, with ties
broken by comparing the max for equality against UP first, then DOWN, then
FLAT; in particular equal DOWN and FLAT confidences that both exceed the UP
confidence yield the bearish class. -/
theorem classify_argmax (u d f : ℚ) :
    (d ≤ u → f ≤ u → classify u d f = "BULLISH") ∧
    (u < d → f ≤ d → classify u d f = "BEARISH") ∧
    (u < f → d < f → classify u d f = "NEUTRAL") ∧
    (d = f → u < d → classify u d f = "BEARISH") := by
  refine ⟨fun hd hf => ?_, fun hu hf => ?_, fun hu hd => ?_, fun hdf hu => ?_⟩
  · unfold classify
    rw [if_pos (max_eq_left (max_le hd hf))]
  · unfold classify
    have hm : max u (max d f) = d := by rw [max_eq_left hf]; exact max_eq_right hu.le
    rw [hm, if_neg hu.ne', if_pos rfl]
  · unfold classify
    have hm : max u (max d f) = f := by rw [max_eq_right hd.le]; exact max_eq_right hu.le
    rw [hm, if_neg hu.ne', if_neg hd.ne']
  · subst hdf
    unfold classify
    have hm : max u (max d d) = d := by rw [max_self]; exact max_eq_right hu.le
    rw [hm, if_neg hu.ne', if_pos rfl]

/-- Witness for `classify_argmax`: one concrete triple per branch, including
the DOWN/FLAT exact tie `(10, 45, 45)` resolved as BEARISH. -/
theorem classify_argmax_witness :
    classify 50 30 20 = "BULLISH" ∧ classify 20 50 30 = "BEARISH" ∧
    classify 20 30 50 = "NEUTRAL" ∧ classify 10 45 45 = "BEARISH" :=
  ⟨(classify_argmax 50 30 20).1 (by norm_num) (by norm_num),
   (classify_argmax 20 50 30).2.1 (by norm_num) (by norm_num),
   (classify_argmax 20 30 50).2.2.1 (by norm_num) (by norm_num),
   (classify_argmax 10 45 45).2.2.2 rfl (by norm_num)⟩

/-- C8: with at least one matched pattern the signal-strength scalar
`(max_confidence - 33.33) / 66.67 * 100` is nonnegative — the max of three
nonnegative confidences summing to 100 is at least 100/3 > 33.33 — and the
tiers are Strong above 70, Moderate above 40, Weak otherwise. -/
theorem strength_score_spec (train : List Move) (pats : List Pattern)
    (h : 0 < matchedCount train pats) :
    0 ≤ strengthScore (confidence train pats UP) (confidence train pats DOWN)
        (confidence train pats FLAT) ∧
    ∀ u d f : ℚ,
      (70 < strengthScore u d f → signalStrength u d f = "Strong") ∧
      (strengthScore u d f ≤ 70 → 40 < strengthScore u d f →
        signalStrength u d f = "Moderate") ∧
      (strengthScore u d f ≤ 40 → signalStrength u d f = "Weak") := by
  constructor
  · have hsum := conf_sum_eq train pats h
    have hu := confidence_nonneg train pats UP
    have hd := confidence_nonneg train pats DOWN
    have hf := confidence_nonneg train pats FLAT
    have h1 : confidence train pats UP ≤
        max (confidence train pats UP)
          (max (confidence train pats DOWN) (confidence train pats FLAT)) :=
      le_max_left _ _
    have h2 : confidence train pats DOWN ≤
        max (confidence train pats UP)
          (max (confidence train pats DOWN) (confidence train pats FLAT)) :=
      le_trans (le_max_left _ _) (le_max_right _ _)
    have h3 : confidence train pats FLAT ≤
        max (confidence train pats UP)
          (max (confidence train pats DOWN) (confidence train pats FLAT)) :=
      le_trans (le_max_right _ _) (le_max_right _ _)
    unfold strengthScore
    apply mul_nonneg (div_nonneg (by linarith) (by norm_num)) (by norm_num)
  · intro u d f
    refine ⟨fun h70 => ?_, fun h70 h40 => ?_, fun h40 => ?_⟩
    · unfold signalStrength
      rw [if_pos h70]
    · unfold signalStrength
      rw [if_neg (not_lt.mpr h70), if_pos h40]
    · unfold signalStrength
      rw [if_neg (not_lt.mpr (le_trans h40 (by norm_num))), if_neg (not_lt.mpr h40)]

/-- Witness for `strength_score_spec`: model trained on `[1, 2, 3, 2, 3]`, day
patterns `[(UP, UP, DOWN), (DOWN, DOWN, DOWN)]` (one matched). -/
theorem strength_score_spec_witness :
    0 ≤ strengthScore
        (confidence (encodeMovements [1, 2, 3, 2, 3]) [(UP, UP, DOWN), (DOWN, DOWN, DOWN)] UP)
        (confidence (encodeMovements [1, 2, 3, 2, 3]) [(UP, UP, DOWN), (DOWN, DOWN, DOWN)] DOWN)
        (confidence (encodeMovements [1, 2, 3, 2, 3]) [(UP, UP, DOWN), (DOWN, DOWN, DOWN)]
          FLAT) ∧
    ∀ u d f : ℚ,
      (70 < strengthScore u d f → signalStrength u d f = "Strong") ∧
      (strengthScore u d f ≤ 70 → 40 < strengthScore u d f →
        signalStrength u d f = "Moderate") ∧
      (strengthScore u d f ≤ 40 → signalStrength u d f = "Weak") :=
  strength_score_spec (encodeMovements [1, 2, 3, 2, 3]) [(UP, UP, DOWN), (DOWN, DOWN, DOWN)]
    (by decide)

/-- C4 counterexample: training on closes `[1, 2, 3, 4, 5, 6]` stores only the
pattern `(UP, UP, UP)`; for target-day closes `[1, 2, 3, 4, 2]` the day
generates 3 local patterns of which exactly 1 matches, and the unmatched
patterns (e.g. `(FLAT, UP, UP)`) still count toward the "patterns analyzed"
denominator: the reported match quality is 100/3, not the 100 that a
matched-only denominator would force. -/
theorem match_quality_counterexample :
    inModel (encodeMovements [1, 2, 3, 4, 5, 6]) (FLAT, UP, UP) = false ∧
    (FLAT, UP, UP) ∈ patternsFound [1, 2, 3, 4, 2] ∧
    matchedCount (encodeMovements [1, 2, 3, 4, 5, 6]) (patternsFound [1, 2, 3, 4, 2]) = 1 ∧
    (patternsFound [1, 2, 3, 4, 2]).length = 3 ∧
    matchQuality (encodeMovements [1, 2, 3, 4, 5, 6]) (patternsFound [1, 2, 3, 4, 2])
      = 100 / 3 ∧
    matchQuality (encodeMovements [1, 2, 3, 4, 5, 6]) (patternsFound [1, 2, 3, 4, 2]) ≠
      (matchedCount (encodeMovements [1, 2, 3, 4, 5, 6]) (patternsFound [1, 2, 3, 4, 2]) : ℚ) /
        (matchedCount (encodeMovements [1, 2, 3, 4, 5, 6]) (patternsFound [1, 2, 3, 4, 2]) : ℚ)
        * 100 := by
  have h1 : matchedCount (encodeMovements [1, 2, 3, 4, 5, 6]) (patternsFound [1, 2, 3, 4, 2])
      = 1 := by decide
  have h2 : (patternsFound [1, 2, 3, 4, 2]).length = 3 := by decide
  have hq : matchQuality (encodeMovements [1, 2, 3, 4, 5, 6]) (patternsFound [1, 2, 3, 4, 2])
      = 100 / 3 := by
    unfold matchQuality
    rw [h1, h2]
    norm_num
  refine ⟨by decide, by decide, h1, h2, hq, ?_⟩
  rw [hq, h1]
  norm_num

/-- C4 amended: a local pattern absent from the trained model is skipped only
for the probability-mass accumulation and the matched-pattern count; it still
counts toward the "patterns analyzed" denominator, which is the day's full
local-pattern list, so the reported match quality equals matched patterns
divided by ALL local patterns generated that day (the glossary's ratio),
times 100. -/
theorem match_quality_spec (train : List Move) (pats : List Pattern) :
    pats.length = matchedCount train pats +
      (pats.filter (fun p => !(inModel train p))).length ∧
    matchQuality train pats =
      (matchedCount train pats : ℚ) / (pats.length : ℚ) * 100 ∧
    ∀ m : Move, totalMass train pats m =
      totalMass train (pats.filter (fun p => inModel train p)) m := by
  refine ⟨?_, rfl, fun m => ?_⟩
  · induction pats with
    | nil => rfl
    | cons q t ih =>
      cases hq : inModel train q <;>
        simp [matchedCount, List.filter_cons, hq] at ih ⊢ <;> omega
  · unfold totalMass
    rw [List.filter_filter]
    simp [Bool.and_self]

/-- `available_dates = sorted(df['TradingDay'].unique())` (line 129): the
distinct trading days in ascending order. -/
def availableDates (days : List ℕ) : List ℕ :=
  List.insertionSort (· ≤ ·) days.dedup

/-- Date selection (lines 139-148): abort if the requested date is not among
the available dates, abort if it is the first one, else take the date at the
previous index. -/
def selectPreviousDay (avail : List ℕ) (d : ℕ) : Except String ℕ :=
  if d ∉ avail then Except.error "Date not in dataset"
  else if avail.indexOf d = 0 then Except.error "No previous day data available"
  else Except.ok (avail.getD (avail.indexOf d - 1) 0)

theorem mem_availableDates (days : List ℕ) (x : ℕ) :
    x ∈ availableDates days ↔ x ∈ days := by
  unfold availableDates
  rw [(List.perm_insertionSort _ _).mem_iff, List.mem_dedup]

theorem sorted_lt_availableDates (days : List ℕ) :
    (availableDates days).Sorted (· < ·) := by
  have hs : (availableDates days).Sorted (· ≤ ·) := List.sorted_insertionSort _ _
  have hn : (availableDates days).Nodup :=
    ((List.perm_insertionSort _ _).nodup_iff).mpr (List.nodup_dedup days)
  exact hs.lt_of_le hn

theorem indexOf_eq_zero_of_min (l : List ℕ) (d : ℕ) (hs : l.Sorted (· < ·))
    (hd : d ∈ l) (hmin : ∀ x ∈ l, d ≤ x) : l.indexOf d = 0 := by
  rcases l with _ | ⟨a, t⟩
  · exact absurd hd (List.not_mem_nil d)
  · have had : a = d := by
      rcases List.mem_cons.mp hd with h | h
      · exact h.symm
      · exact absurd (hmin a (List.mem_cons_self a t))
          (not_le.mpr (List.rel_of_sorted_cons hs d h))
    rw [had, List.indexOf_cons_self]

theorem getD_pred_spec : ∀ (l : List ℕ) (d : ℕ), l.Sorted (· < ·) → d ∈ l →
    l.indexOf d ≠ 0 →
    l.getD (l.indexOf d - 1) 0 ∈ l ∧ l.getD (l.indexOf d - 1) 0 < d ∧
      ∀ x ∈ l, x < d → x ≤ l.getD (l.indexOf d - 1) 0 := by
  intro l
  induction l with
  | nil => intro d _ hd _; exact absurd hd (List.not_mem_nil d)
  | cons a t ih =>
    intro d hs hd hidx
    rcases eq_or_ne a d with rfl | hne
    · rw [List.indexOf_cons_self] at hidx; exact absurd rfl hidx
    · have hd' : d ∈ t := by
        rcases List.mem_cons.mp hd with h | h
        · exact absurd h.symm hne
        · exact h
      have hidx' : (a :: t).indexOf d = t.indexOf d + 1 := List.indexOf_cons_ne t hne
      have hst : t.Sorted (· < ·) := hs.of_cons
      have hat : ∀ x ∈ t, a < x := List.rel_of_sorted_cons hs
      rw [hidx', Nat.add_sub_cancel]
      rcases ht : t.indexOf d with _ | k
      · rcases t with _ | ⟨b, t'⟩
        · exact absurd hd' (List.not_mem_nil d)
        · have hbd : b = d := by
            by_contra hbd
            rw [List.indexOf_cons_ne t' hbd] at ht
            exact Nat.succ_ne_zero _ ht
          subst hbd
          refine ⟨List.mem_cons_self a _, hat b (List.mem_cons_self b t'), ?_⟩
          intro x hx hxd
          rcases List.mem_cons.mp hx with rfl | hx'
          · exact le_refl x
          · rcases List.mem_cons.mp hx' with rfl | hx''
            · exact absurd hxd (lt_irrefl x)
            · exact absurd hxd (asymm (List.rel_of_sorted_cons hst x hx''))
      · have hr := ih d hst hd' (by rw [ht]; exact Nat.succ_ne_zero k)
        rw [ht, Nat.add_sub_cancel] at hr
        obtain ⟨hmem, hlt, hmax⟩ := hr
        have hg : (a :: t).getD (k + 1) 0 = t.getD k 0 := rfl
        rw [hg]
        refine ⟨List.mem_cons_of_mem a hmem, hlt, ?_⟩
        intro x hx hxd
        rcases List.mem_cons.mp hx with rfl | hx'
        · exact le_of_lt (hat _ hmem)
        · exact hmax x hx' hxd

/-- C9: date selection fails with the date-not-in-dataset error exactly when
the requested date is not among the dataset's trading days; it fails with the
no-previous-day error when the requested date is the earliest trading day
present; for any other in-dataset date it proceeds with the immediately
preceding trading day of the sorted distinct dates (the greatest trading day
strictly before the requested one). -/
theorem date_selection_spec (days : List ℕ) (d : ℕ) :
    (d ∉ days → selectPreviousDay (availableDates days) d =
      Except.error "Date not in dataset") ∧
    (d ∈ days → (∀ x ∈ days, d ≤ x) → selectPreviousDay (availableDates days) d =
      Except.error "No previous day data available") ∧
    (d ∈ days → (∃ x ∈ days, x < d) →
      ∃ r, selectPreviousDay (availableDates days) d = Except.ok r ∧
        r ∈ days ∧ r < d ∧ ∀ x ∈ days, x < d → x ≤ r) := by
  refine ⟨fun hnot => ?_, fun hd hmin => ?_, fun hd hex => ?_⟩
  · unfold selectPreviousDay
    rw [if_pos (fun hmem => hnot ((mem_availableDates days d).mp hmem))]
  · have hmem : d ∈ availableDates days := (mem_availableDates days d).mpr hd
    have hzero : (availableDates days).indexOf d = 0 :=
      indexOf_eq_zero_of_min _ d (sorted_lt_availableDates days) hmem
        (fun x hx => hmin x ((mem_availableDates days x).mp hx))
    unfold selectPreviousDay
    rw [if_neg (fun hno => hno hmem), if_pos hzero]
  · have hmem : d ∈ availableDates days := (mem_availableDates days d).mpr hd
    obtain ⟨y, hy, hyd⟩ := hex
    have hymem : y ∈ availableDates days := (mem_availableDates days y).mpr hy
    have hnz : (availableDates days).indexOf d ≠ 0 := by
      intro h0
      have hhead := indexOf_eq_zero_of_min
      rcases hav : availableDates days with _ | ⟨a, t⟩
      · rw [hav] at hmem; exact absurd hmem (List.not_mem_nil d)
      · have had : a = d := by
          by_contra hcon
          rw [hav, List.indexOf_cons_ne t hcon] at h0
          exact Nat.succ_ne_zero _ h0
        have hs := sorted_lt_availableDates days
        rw [hav] at hs hymem
        rcases List.mem_cons.mp hymem with rfl | hyt
        · rw [had] at hyd; exact absurd hyd (lt_irrefl d)
        · have := List.rel_of_sorted_cons hs y hyt
          rw [had] at this
          exact absurd hyd (asymm this)
    obtain ⟨hrmem, hrlt, hrmax⟩ :=
      getD_pred_spec (availableDates days) d (sorted_lt_availableDates days) hmem hnz
    refine ⟨(availableDates days).getD ((availableDates days).indexOf d - 1) 0, ?_, ?_, hrlt, ?_⟩
    · unfold selectPreviousDay
      rw [if_neg (fun hno => hno hmem), if_neg hnz]
    · exact (mem_availableDates days _).mp hrmem
    · intro x hx hxd
      exact hrmax x ((mem_availableDates days x).mpr hx) hxd

/-- Witness for `date_selection_spec` over the trading days `[7, 3, 5, 3]`
(distinct sorted dates `[3, 5, 7]`): date 4 is absent, date 3 is the earliest,
and date 7 selects the immediately preceding day 5. -/
theorem date_selection_spec_witness :
    selectPreviousDay (availableDates [7, 3, 5, 3]) 4 =
      Except.error "Date not in dataset" ∧
    selectPreviousDay (availableDates [7, 3, 5, 3]) 3 =
      Except.error "No previous day data available" ∧
    ∃ r, selectPreviousDay (availableDates [7, 3, 5, 3]) 7 = Except.ok r ∧
      r ∈ [7, 3, 5, 3] ∧ r < 7 ∧ ∀ x ∈ [7, 3, 5, 3], x < 7 → x ≤ r :=
  ⟨(date_selection_spec [7, 3, 5, 3] 4).1 (by decide),
   (date_selection_spec [7, 3, 5, 3] 3).2.1 (by decide) (by decide),
   (date_selection_spec [7, 3, 5, 3] 7).2.2 (by decide) ⟨5, by decide, by decide⟩⟩

/-- `prev_day_df['Movement'].tail(5)` (line 213): the last (at most) 5
movement symbols of the day. -/
def last5 (moves : List Move) : List Move :=
  moves.drop (moves.length - 5)

/-- The backwards scan of lines 214-219 expressed on the reversed tail:
starting at the day's final symbol, keep counting while the symbol equals its
predecessor and is not FLAT, else stop; the counter starts at 1. -/
def runLen : List Move → ℕ
  | a :: b :: rest => if a = b ∧ a ≠ FLAT then 1 + runLen (b :: rest) else 1
  | _ => 1

/-- `consecutive` (lines 214-219). -/
def consecutiveCount (dayMoves : List Move) : ℕ :=
  runLen (last5 dayMoves).reverse

def moveStr : Move → String
  | UP => "UP"
  | DOWN => "DOWN"
  | FLAT => "FLAT"

/-- `momentum_type` (line 221): the final symbol when the run exceeds 1, else
"Mixed". -/
def momentumType (dayMoves : List Move) : String :=
  if 1 < consecutiveCount dayMoves then moveStr ((last5 dayMoves).reverse.headD FLAT)
  else "Mixed"

/-- `momentum` tiers (lines 222-227). -/
def momentumTier (c : ℕ) : String :=
  if 4 ≤ c then "Strong" else if 2 ≤ c then "Moderate" else "Weak"

theorem runLen_pos : ∀ l : List Move, 1 ≤ runLen l
  | [] => le_refl 1
  | [_] => le_refl 1
  | _ :: _ :: _ => by
    unfold runLen
    split
    · exact Nat.le_add_right 1 _
    · exact le_refl 1

theorem runLen_le_length : ∀ l : List Move, l ≠ [] → runLen l ≤ l.length
  | [], h => absurd rfl h
  | [_], _ => le_refl 1
  | a :: b :: rest, _ => by
    unfold runLen
    split
    · have := runLen_le_length (b :: rest) (by simp)
      simp only [List.length_cons] at this ⊢
      omega
    · simp only [List.length_cons]
      omega

theorem runLen_flat_head : ∀ rest : List Move, runLen (FLAT :: rest) = 1
  | [] => rfl
  | _ :: _ => by
    unfold runLen
    rw [if_neg (fun h => h.2 rfl)]

theorem getLast?_drop_of_lt : ∀ (l : List Move) (n : ℕ), n < l.length →
    (l.drop n).getLast? = l.getLast? := by
  intro l
  induction l with
  | nil => intro n hn; simp at hn
  | cons a t ih =>
    intro n hn
    cases n with
    | zero => rfl
    | succ k =>
      have hk : k < t.length := by simpa using Nat.lt_of_succ_lt_succ hn
      have hdrop : (a :: t).drop (k + 1) = t.drop k := rfl
      rw [hdrop, ih k hk]
      rcases t with _ | ⟨b, r⟩
      · simp at hk
      · exact (List.getLast?_cons_cons ..).symm

theorem dayMovements_length (closes : List ℚ) :
    (dayMovements closes).length = closes.length := by
  cases closes with
  | nil => rfl
  | cons a t =>
    show (FLAT :: encodeMovements (a :: t)).length = (a :: t).length
    rw [List.length_cons, encodeMovements_length]
    simp only [List.length_cons]
    omega

/-- C10: whenever the predictor processes a target day (at least 10 candles),
the consecutive momentum counter lies between 1 and 5 inclusive; and if the
day's final movement symbol is FLAT the counter is exactly 1, so momentum is
reported Weak with type Mixed, even if the symbols before the trailing FLAT
form a long identical run. -/
theorem momentum_spec (closes : List ℚ) (hlen : 10 ≤ closes.length) :
    1 ≤ consecutiveCount (dayMovements closes) ∧
    consecutiveCount (dayMovements closes) ≤ 5 ∧
    ((dayMovements closes).getLast? = some FLAT →
      consecutiveCount (dayMovements closes) = 1 ∧
      momentumTier (consecutiveCount (dayMovements closes)) = "Weak" ∧
      momentumType (dayMovements closes) = "Mixed") := by
  have hdm : (dayMovements closes).length = closes.length := dayMovements_length closes
  have h5 : (last5 (dayMovements closes)).length = 5 := by
    unfold last5
    rw [List.length_drop]
    omega
  refine ⟨runLen_pos _, ?_, fun hlast => ?_⟩
  · have hne : (last5 (dayMovements closes)).reverse ≠ [] := by
      intro h0
      have hcon := congrArg List.length h0
      rw [List.length_reverse, h5] at hcon
      exact absurd hcon (by decide)
    have hle := runLen_le_length _ hne
    rw [List.length_reverse, h5] at hle
    exact hle
  · have hrev : (last5 (dayMovements closes)).reverse.head? = some FLAT := by
      rw [List.head?_reverse]
      unfold last5
      rw [getLast?_drop_of_lt (dayMovements closes) ((dayMovements closes).length - 5)
        (by omega)]
      exact hlast
    obtain ⟨r, hr⟩ : ∃ r, (last5 (dayMovements closes)).reverse = FLAT :: r := by
      rcases hrl : (last5 (dayMovements closes)).reverse with _ | ⟨x, r⟩
      · rw [hrl] at hrev; cases hrev
      · rw [hrl] at hrev
        simp only [List.head?_cons, Option.some.injEq] at hrev
        exact ⟨r, by rw [hrev]⟩
    have hcc : consecutiveCount (dayMovements closes) = 1 := by
      unfold consecutiveCount
      rw [hr]
      exact runLen_flat_head r
    refine ⟨hcc, by rw [hcc]; rfl, ?_⟩
    unfold momentumType
    rw [if_neg (by rw [hcc]; exact lt_irrefl 1)]

/-- Witness for `momentum_spec`: ten closes ending in an exact tie, so the
final movement symbol is FLAT despite the preceding eight-long UP run. -/
theorem momentum_spec_witness :
    1 ≤ consecutiveCount (dayMovements [1, 2, 3, 4, 5, 6, 7, 8, 9, 9]) ∧
    consecutiveCount (dayMovements [1, 2, 3, 4, 5, 6, 7, 8, 9, 9]) ≤ 5 ∧
    (consecutiveCount (dayMovements [1, 2, 3, 4, 5, 6, 7, 8, 9, 9]) = 1 ∧
      momentumTier (consecutiveCount (dayMovements [1, 2, 3, 4, 5, 6, 7, 8, 9, 9]))
        = "Weak" ∧
      momentumType (dayMovements [1, 2, 3, 4, 5, 6, 7, 8, 9, 9]) = "Mixed") :=
  ⟨(momentum_spec [1, 2, 3, 4, 5, 6, 7, 8, 9, 9] (by decide)).1,
   (momentum_spec [1, 2, 3, 4, 5, 6, 7, 8, 9, 9] (by decide)).2.1,
   (momentum_spec [1, 2, 3, 4, 5, 6, 7, 8, 9, 9] (by decide)).2.2 (by decide)⟩

end MarkovSystem
